import Mathlib

/-!
Verification of the availability / scheduling core and the natural-language
query parser of the `walter` repository.

The embedding covers:

* the free-slot sweep of `EnhancedCalendarCLI.show_free_times`
  (`enhanced_calendar_cli.py`), the spec's `freeSlots` operation;
* the conflict check of `GoogleCalendarPythonClient.check_availability`
  (`google_calendar_python_client.py`), the spec's `hasConflict` operation;
* `NaturalLanguageParser.parse_query` and its `_extract_*` helpers
  (`enhanced_event_search.py`), the spec's `parse` operation;
* the conflict-cue extraction of
  `NaturalLanguageCalendarCLI.parse_natural_language` (`natural_calendar_cli.py`).

Timestamps are modelled as minutes (`Nat`): the Python code works on
`datetime` values inside a single day and compares / subtracts them, and the
calendar client compares ISO-8601 UTC strings, whose lexicographic order
agrees with the instant order for equal-format strings.  Query strings are
modelled as `List Char` (the Python code treats strings as character
sequences via `re` and `in`).
-/

namespace Walter

/-! ### Calendar data model -/

/-- One busy calendar interval, the spec's `BusyInterval`.  The Python code
reads per-event dictionaries with `start`, `end` and `summary`; `end` is a
Lean keyword, so the field is called `stop`. -/
structure BusyInterval where
  start : Nat
  stop : Nat
  summary : String
deriving DecidableEq

/-- A computed free slot, the spec's `FreeSlot` (the Python dictionaries
`{'start': ..., 'end': ..., 'duration': ...}` built by `show_free_times`). -/
structure FreeSlot where
  start : Nat
  stop : Nat
  duration : Nat
deriving DecidableEq

/-- The day window of the availability scan, the spec's `AvailabilityWindow`
(`start_of_day` / `end_of_day` in `show_free_times`). -/
structure AvailabilityWindow where
  day_start : Nat
  day_end : Nat
deriving DecidableEq

/-- The sweep loop of `show_free_times`: for each event in sorted order, emit
the gap `[cursor, event.start)` when the cursor is strictly before the event
start and the gap is at least `minFree` minutes, then set the cursor to the
event's end time (the source does `current_time = event_end_time`
unconditionally, it does not take a maximum); finally emit the trailing gap
up to `dayEnd` under the same length condition. -/
def sweepFree (minFree dayEnd : Nat) : Nat → List BusyInterval → List FreeSlot
  | cursor, [] =>
    if cursor < dayEnd ∧ minFree ≤ dayEnd - cursor then
      [⟨cursor, dayEnd, dayEnd - cursor⟩]
    else []
  | cursor, b :: rest =>
    (if cursor < b.start ∧ minFree ≤ b.start - cursor then
      [⟨cursor, b.start, b.start - cursor⟩]
    else []) ++ sweepFree minFree dayEnd b.stop rest

/-- Sort order used by `show_free_times`:
`sorted(events, key=lambda x: x.get('start', ''))`.  Python's `sorted` is a
stable sort by the start time; the tie order among intervals with equal
start is not observable in any property proved below. -/
def startLE (a b : BusyInterval) : Prop := a.start ≤ b.start

instance : DecidableRel startLE := fun a b => Nat.decLe a.start b.start

instance : IsTotal BusyInterval startLE := ⟨fun a b => Nat.le_total a.start b.start⟩

instance : IsTrans BusyInterval startLE := ⟨fun _ _ _ => Nat.le_trans⟩

/-- The sorting step of `show_free_times`. -/
def sortBusy (busy : List BusyInterval) : List BusyInterval :=
  busy.insertionSort startLE

/-- The spec's `freeSlots(busy, window, min_free_minutes)`: the free-slot
computation of `show_free_times`.  The source hardcodes `min_free_minutes`
as the literal `30` at both of its emission sites; it is kept as the
parameter the spec's operation signature gives it, and the concrete claims
instantiate it with `30`. -/
def freeSlots (busy : List BusyInterval) (window : AvailabilityWindow)
    (minFree : Nat) : List FreeSlot :=
  sweepFree minFree window.day_end window.day_start (sortBusy busy)

/-- The validation failure the spec's §7 prescribes for malformed windows or
busy intervals. -/
inductive ValidationError where
  | windowOrder : ValidationError
  | intervalOrder : ValidationError
deriving DecidableEq

/-- The slot computation of `show_free_times` with an explicit error channel
(the shape a fail-fast validation would use).  The source body performs no
validation and contains no `raise`: its only `try/except` guards the parsing
of the date string, outside the slot computation, so every input reaches the
sweep and the error channel is never used. -/
def freeSlotsRun (busy : List BusyInterval) (window : AvailabilityWindow)
    (minFree : Nat) : Except ValidationError (List FreeSlot) :=
  Except.ok (freeSlots busy window minFree)

/-- A candidate interval for the conflict check (the `start_time` /
`end_time` arguments of `check_availability`). -/
structure Candidate where
  start : Nat
  stop : Nat
deriving DecidableEq

/-- The result of `check_availability`: the `available` flag and the list of
conflicting events, the spec's `hasConflict` report. -/
structure ConflictReport where
  available : Bool
  conflicts : List BusyInterval
deriving DecidableEq

/-- The conflict computation of `check_availability`: collect, in input
order, every event with `start_time < event_end and end_time > event_start`,
and report `available` as `len(conflicts) == 0`. -/
def check_availability (cand : Candidate) (busy : List BusyInterval) :
    ConflictReport :=
  let conflicts := busy.filter fun b =>
    decide (cand.start < b.stop) && decide (cand.stop > b.start)
  ⟨conflicts.length == 0, conflicts⟩

/-- A time `t` lies inside the half-open span `[lo, hi)`. -/
def memSpan (t lo hi : Nat) : Prop := lo ≤ t ∧ t < hi

/-- Half-open overlap of a free slot and a busy interval. -/
def slotOverlaps (s : FreeSlot) (b : BusyInterval) : Prop :=
  s.start < b.stop ∧ b.start < s.stop

/-- Half-open disjointness of two busy intervals (the negation of the
overlap test used by `check_availability`). -/
def intervalsDisjoint (a b : BusyInterval) : Prop :=
  b.stop ≤ a.start ∨ a.stop ≤ b.start

/-- A busy interval is well formed when its start is strictly before its
end. -/
def wellFormed (b : BusyInterval) : Prop := b.start < b.stop

/-! ### Lemmas about the sweep -/

/-- Every slot the sweep emits records `duration = stop - start`, has a
strictly positive extent, and is at least `minFree` minutes long. -/
theorem sweepFree_mem {m we : Nat} :
    ∀ {c : Nat} {l : List BusyInterval} {s : FreeSlot},
      s ∈ sweepFree m we c l →
      s.duration = s.stop - s.start ∧ s.start < s.stop ∧ m ≤ s.duration := by
  intro c l
  induction l generalizing c with
  | nil =>
    intro s hs
    simp only [sweepFree] at hs
    split at hs
    · next h =>
      simp only [List.mem_singleton] at hs
      subst hs
      exact ⟨rfl, h.1, h.2⟩
    · simp at hs
  | cons b rest ih =>
    intro s hs
    simp only [sweepFree, List.mem_append] at hs
    rcases hs with hs | hs
    · split at hs
      · next h =>
        simp only [List.mem_singleton] at hs
        subst hs
        exact ⟨rfl, h.1, h.2⟩
      · simp at hs
    · exact ih hs

/-- On a chain of well-formed intervals that all start at or after the
cursor, every emitted slot starts at or after the cursor. -/
theorem sweepFree_start_ge {m we : Nat} :
    ∀ {c : Nat} {l : List BusyInterval},
      l.Pairwise (fun a b => a.stop ≤ b.start) →
      (∀ b ∈ l, wellFormed b) →
      (∀ b ∈ l, c ≤ b.start) →
      ∀ s ∈ sweepFree m we c l, c ≤ s.start := by
  intro c l
  induction l generalizing c with
  | nil =>
    intro _ _ _ s hs
    simp only [sweepFree] at hs
    split at hs
    · simp only [List.mem_singleton] at hs
      subst hs
      exact Nat.le_refl _
    · simp at hs
  | cons b rest ih =>
    intro hchain hwf hc s hs
    simp only [sweepFree, List.mem_append] at hs
    rcases hs with hs | hs
    · split at hs
      · simp only [List.mem_singleton] at hs
        subst hs
        exact Nat.le_refl _
      · simp at hs
    · have hrest : ∀ b' ∈ rest, b.stop ≤ b'.start :=
        fun b' hb' => (List.pairwise_cons.mp hchain).1 b' hb'
      have h1 : b.stop ≤ s.start :=
        ih (List.pairwise_cons.mp hchain).2
          (fun b' hb' => hwf b' (List.mem_cons_of_mem _ hb')) hrest s hs
      have h2 : c ≤ b.start := hc b (List.mem_cons_self _ _)
      have h3 : b.start < b.stop := hwf b (List.mem_cons_self _ _)
      exact Nat.le_trans (Nat.le_trans h2 (Nat.le_of_lt h3)) h1

/-- On a chain of well-formed intervals the emitted slots form a chain
themselves: each slot ends at or before the next one starts. -/
theorem sweepFree_chain {m we : Nat} :
    ∀ {c : Nat} {l : List BusyInterval},
      l.Pairwise (fun a b => a.stop ≤ b.start) →
      (∀ b ∈ l, wellFormed b) →
      (sweepFree m we c l).Pairwise (fun s1 s2 => s1.stop ≤ s2.start) := by
  intro c l
  induction l generalizing c with
  | nil =>
    intro _ _
    simp only [sweepFree]
    split
    · exact List.pairwise_singleton _ _
    · exact List.Pairwise.nil
  | cons b rest ih =>
    intro hchain hwf
    have hchain' := (List.pairwise_cons.mp hchain).2
    have hwf' : ∀ b' ∈ rest, wellFormed b' :=
      fun b' hb' => hwf b' (List.mem_cons_of_mem _ hb')
    have hrest : ∀ b' ∈ rest, b.stop ≤ b'.start :=
      fun b' hb' => (List.pairwise_cons.mp hchain).1 b' hb'
    simp only [sweepFree]
    refine List.pairwise_append.mpr ⟨?_, ih hchain' hwf', ?_⟩
    · split
      · exact List.pairwise_singleton _ _
      · exact List.Pairwise.nil
    · intro s1 hs1 s2 hs2
      split at hs1
      · simp only [List.mem_singleton] at hs1
        subst hs1
        have hge : b.stop ≤ s2.start :=
          sweepFree_start_ge hchain' hwf' hrest s2 hs2
        exact Nat.le_trans (Nat.le_of_lt (hwf b (List.mem_cons_self _ _))) hge
      · simp at hs1

/-- On a chain of well-formed intervals no emitted slot overlaps any busy
interval of the list. -/
theorem sweepFree_no_overlap {m we : Nat} :
    ∀ {c : Nat} {l : List BusyInterval},
      l.Pairwise (fun a b => a.stop ≤ b.start) →
      (∀ b ∈ l, wellFormed b) →
      ∀ s ∈ sweepFree m we c l, ∀ b ∈ l, ¬ slotOverlaps s b := by
  intro c l
  induction l generalizing c with
  | nil =>
    intro _ _ s _ b hb
    simp at hb
  | cons b rest ih =>
    intro hchain hwf s hs b' hb'
    have hchain' := (List.pairwise_cons.mp hchain).2
    have hwf' : ∀ x ∈ rest, wellFormed x :=
      fun x hx => hwf x (List.mem_cons_of_mem _ hx)
    have hrest : ∀ x ∈ rest, b.stop ≤ x.start :=
      fun x hx => (List.pairwise_cons.mp hchain).1 x hx
    simp only [sweepFree, List.mem_append] at hs
    rcases hs with hs | hs
    · have hemit : s.stop = b.start ∧ s.start < b.start := by
        split at hs
        · next h =>
          simp only [List.mem_singleton] at hs
          subst hs
          exact ⟨rfl, h.1⟩
        · simp at hs
      rcases List.mem_cons.mp hb' with rfl | hb'
      · intro hov
        exact Nat.lt_irrefl b'.start (hemit.1 ▸ hov.2)
      · intro hov
        have h1 : b.start < b'.start :=
          Nat.lt_of_lt_of_le (hwf b (List.mem_cons_self _ _)) (hrest b' hb')
        have h2 : b'.start < b.start := hemit.1 ▸ hov.2
        exact Nat.lt_irrefl _ (Nat.lt_trans h1 h2)
    · rcases List.mem_cons.mp hb' with rfl | hb'
      · intro hov
        have hge : b'.stop ≤ s.start :=
          sweepFree_start_ge hchain' hwf' hrest s hs
        exact Nat.lt_irrefl _ (Nat.lt_of_lt_of_le hov.1 hge)
      · exact ih hchain' hwf' s hs b' hb'

/-- With a zero minimum-length threshold, the sweep over a chain of
well-formed intervals covers the window exactly: a time inside the window
lies in an emitted slot exactly when it lies in no busy interval. -/
theorem sweepFree_cover {we : Nat} :
    ∀ {c : Nat} {l : List BusyInterval},
      l.Pairwise (fun a b => a.stop ≤ b.start) →
      (∀ b ∈ l, wellFormed b) →
      ∀ t, c ≤ t → t < we →
        ((∃ s ∈ sweepFree 0 we c l, memSpan t s.start s.stop) ↔
          ∀ b ∈ l, ¬ memSpan t b.start b.stop) := by
  intro c l
  induction l generalizing c with
  | nil =>
    intro _ _ t hct htw
    constructor
    · intro _ b hb
      simp at hb
    · intro _
      refine ⟨⟨c, we, we - c⟩, ?_, hct, htw⟩
      simp only [sweepFree]
      rw [if_pos ⟨Nat.lt_of_le_of_lt hct htw, Nat.zero_le _⟩]
      exact List.mem_singleton_self _
  | cons b rest ih =>
    intro hchain hwf t hct htw
    have hchain' := (List.pairwise_cons.mp hchain).2
    have hwf' : ∀ x ∈ rest, wellFormed x :=
      fun x hx => hwf x (List.mem_cons_of_mem _ hx)
    have hrest : ∀ x ∈ rest, b.stop ≤ x.start :=
      fun x hx => (List.pairwise_cons.mp hchain).1 x hx
    have hrecge : ∀ s ∈ sweepFree 0 we b.stop rest, b.stop ≤ s.start :=
      sweepFree_start_ge hchain' hwf' hrest
    by_cases hcb : c < b.start
    · have hsplit : sweepFree 0 we c (b :: rest) =
          ⟨c, b.start, b.start - c⟩ :: sweepFree 0 we b.stop rest := by
        simp only [sweepFree]
        rw [if_pos ⟨hcb, Nat.zero_le _⟩]
        rfl
      rw [hsplit]
      by_cases ht1 : t < b.start
      · constructor
        · intro _ x hx
          rcases List.mem_cons.mp hx with rfl | hx
          · exact fun hmem => Nat.lt_irrefl _ (Nat.lt_of_le_of_lt hmem.1 ht1)
          · intro hmem
            have : b.start < x.start :=
              Nat.lt_of_lt_of_le (hwf b (List.mem_cons_self _ _)) (hrest x hx)
            exact Nat.lt_irrefl _ (Nat.lt_of_le_of_lt hmem.1 (Nat.lt_trans ht1 this))
        · intro _
          exact ⟨⟨c, b.start, b.start - c⟩, List.mem_cons_self _ _, hct, ht1⟩
      · have ht1' : b.start ≤ t := Nat.le_of_not_lt ht1
        by_cases ht2 : t < b.stop
        · constructor
          · intro ⟨s, hs, hmem⟩
            rcases List.mem_cons.mp hs with rfl | hs
            · exact absurd hmem.2 ht1
            · have := hrecge s hs
              exact absurd hmem.1 (Nat.not_le_of_lt (Nat.lt_of_lt_of_le ht2 this))
          · intro hall
            exact absurd ⟨ht1', ht2⟩ (hall b (List.mem_cons_self _ _))
        · have ht2' : b.stop ≤ t := Nat.le_of_not_lt ht2
          have hiff := ih hchain' hwf' t ht2' htw
          constructor
          · intro ⟨s, hs, hmem⟩
            rcases List.mem_cons.mp hs with rfl | hs
            · exact absurd hmem.2 ht1
            · intro x hx
              rcases List.mem_cons.mp hx with rfl | hx
              · exact fun hmem' => Nat.lt_irrefl _ (Nat.lt_of_le_of_lt ht2' hmem'.2)
              · exact hiff.mp ⟨s, hs, hmem⟩ x hx
          · intro hall
            obtain ⟨s, hs, hmem⟩ := hiff.mpr
              (fun x hx => hall x (List.mem_cons_of_mem _ hx))
            exact ⟨s, List.mem_cons_of_mem _ hs, hmem⟩
    · have hsplit : sweepFree 0 we c (b :: rest) = sweepFree 0 we b.stop rest := by
        simp only [sweepFree]
        rw [if_neg (fun h => hcb h.1)]
        rfl
      have hbc : b.start ≤ c := Nat.le_of_not_lt hcb
      rw [hsplit]
      by_cases ht2 : t < b.stop
      · constructor
        · intro ⟨s, hs, hmem⟩
          have := hrecge s hs
          exact absurd hmem.1 (Nat.not_le_of_lt (Nat.lt_of_lt_of_le ht2 this))
        · intro hall
          exact absurd ⟨Nat.le_trans hbc hct, ht2⟩ (hall b (List.mem_cons_self _ _))
      · have ht2' : b.stop ≤ t := Nat.le_of_not_lt ht2
        have hiff := ih hchain' hwf' t ht2' htw
        constructor
        · intro hex x hx
          rcases List.mem_cons.mp hx with rfl | hx
          · exact fun hmem' => Nat.lt_irrefl _ (Nat.lt_of_le_of_lt ht2' hmem'.2)
          · exact hiff.mp hex x hx
        · intro hall
          exact hiff.mpr (fun x hx => hall x (List.mem_cons_of_mem _ hx))

/-- Sorted, pairwise-disjoint, well-formed busy intervals form a chain. -/
theorem sorted_disjoint_chain {l : List BusyInterval}
    (hwf : ∀ b ∈ l, wellFormed b)
    (hdisj : l.Pairwise intervalsDisjoint)
    (hsort : l.Sorted startLE) :
    l.Pairwise (fun a b => a.stop ≤ b.start) := by
  have hand := List.Pairwise.and hsort hdisj
  refine hand.imp_of_mem ?_
  intro a b ha hb hab
  rcases hab.2 with h | h
  · exact absurd (Nat.lt_of_lt_of_le (hwf b hb) (Nat.le_trans h hab.1))
      (Nat.lt_irrefl _)
  · exact h

instance : DecidablePred wellFormed :=
  fun b => Nat.decLt b.start b.stop

instance : DecidableRel intervalsDisjoint :=
  fun a b => inferInstanceAs (Decidable (b.stop ≤ a.start ∨ a.stop ≤ b.start))

instance (s : FreeSlot) (b : BusyInterval) : Decidable (slotOverlaps s b) :=
  inferInstanceAs (Decidable (s.start < b.stop ∧ b.start < s.stop))

instance (t lo hi : Nat) : Decidable (memSpan t lo hi) :=
  inferInstanceAs (Decidable (lo ≤ t ∧ t < hi))

/-! ### Claims about the availability engine -/

/-- C1 (counterexample): the claim fails on the code twice over.  First, for
the nested busy list `[09:00-12:00, 10:00-10:30]` the cursor is rewound to
10:30 after the second interval, so the emitted slot `[10:30, 21:00]`
overlaps the busy interval `09:00-12:00`.  Second, for the pairwise-disjoint
well-formed busy list `[09:00-10:00, 10:10-11:40]` in the window
`[09:00, 12:00]` with the 30-minute threshold, both gaps are shorter than
the threshold, no slot is emitted, and the window time 10:05 is covered
neither by a busy interval nor by a slot. -/
theorem freeSlots_claim_counterexample :
    (∃ s ∈ freeSlots [⟨540, 720, "Long"⟩, ⟨600, 630, "Nested"⟩] ⟨540, 1260⟩ 30,
      ∃ b ∈ [(⟨540, 720, "Long"⟩ : BusyInterval), ⟨600, 630, "Nested"⟩],
        slotOverlaps s b) ∧
    ((∀ b ∈ [(⟨540, 600, "A"⟩ : BusyInterval), ⟨610, 700, "B"⟩], wellFormed b) ∧
      List.Pairwise intervalsDisjoint
        [(⟨540, 600, "A"⟩ : BusyInterval), ⟨610, 700, "B"⟩] ∧
      freeSlots [⟨540, 600, "A"⟩, ⟨610, 700, "B"⟩] ⟨540, 720⟩ 30 = [] ∧
      memSpan 605 540 720 ∧
      (∀ b ∈ [(⟨540, 600, "A"⟩ : BusyInterval), ⟨610, 700, "B"⟩],
        ¬ memSpan 605 b.start b.stop)) := by
  decide

/-- C1 (amended): the sweep cursor is set to each interval's end
unconditionally, so for overlapping or nested busy intervals it can rewind
and a slot overlapping a busy interval can be emitted; moreover gaps shorter
than `min_free_minutes` are dropped, so the exact-cover property needs a
zero threshold.  When the busy intervals are pairwise disjoint and
well-formed — sorted or unsorted — the emitted slots overlap no busy
interval and do not overlap each other, and with `min_free_minutes = 0`
the slots together with the busy intervals cover the window exactly. -/
theorem freeSlots_disjoint_correct (busy : List BusyInterval)
    (w : AvailabilityWindow) (minFree : Nat)
    (hwf : ∀ b ∈ busy, wellFormed b)
    (hdisj : busy.Pairwise intervalsDisjoint) :
    (∀ s ∈ freeSlots busy w minFree, ∀ b ∈ busy, ¬ slotOverlaps s b) ∧
    (freeSlots busy w minFree).Pairwise (fun s1 s2 => s1.stop ≤ s2.start) ∧
    (∀ t, w.day_start ≤ t → t < w.day_end →
      ((∃ s ∈ freeSlots busy w 0, memSpan t s.start s.stop) ↔
        ∀ b ∈ busy, ¬ memSpan t b.start b.stop)) := by
  have hperm : (sortBusy busy).Perm busy := List.perm_insertionSort startLE busy
  have hwfL : ∀ b ∈ sortBusy busy, wellFormed b :=
    fun b hb => hwf b (hperm.mem_iff.mp hb)
  have hsymm : ∀ {x y : BusyInterval},
      intervalsDisjoint x y → intervalsDisjoint y x :=
    fun h => h.symm
  have hdisjL : (sortBusy busy).Pairwise intervalsDisjoint :=
    (hperm.pairwise_iff hsymm).mpr hdisj
  have hsortL : (sortBusy busy).Sorted startLE :=
    List.sorted_insertionSort startLE busy
  have hchain := sorted_disjoint_chain hwfL hdisjL hsortL
  refine ⟨?_, ?_, ?_⟩
  · intro s hs b hb
    exact sweepFree_no_overlap hchain hwfL s hs b (hperm.mem_iff.mpr hb)
  · exact sweepFree_chain hchain hwfL
  · intro t h1 h2
    refine (sweepFree_cover hchain hwfL t h1 h2).trans ⟨?_, ?_⟩
    · intro hall b hb
      exact hall b (hperm.mem_iff.mpr hb)
    · intro hall b hb
      exact hall b (hperm.mem_iff.mp hb)

/-- C1 (witness): the amended statement applied to the concrete disjoint
busy list `[09:00-10:00]` in the window `[09:00, 17:00]`. -/
theorem freeSlots_disjoint_correct_witness :
    ((∀ b ∈ [(⟨540, 600, "Standup"⟩ : BusyInterval)], wellFormed b) ∧
      List.Pairwise intervalsDisjoint [(⟨540, 600, "Standup"⟩ : BusyInterval)]) ∧
    ((∀ s ∈ freeSlots [⟨540, 600, "Standup"⟩] ⟨540, 1020⟩ 30,
        ∀ b ∈ [(⟨540, 600, "Standup"⟩ : BusyInterval)], ¬ slotOverlaps s b) ∧
      (freeSlots [⟨540, 600, "Standup"⟩] ⟨540, 1020⟩ 30).Pairwise
        (fun s1 s2 => s1.stop ≤ s2.start) ∧
      (∀ t, 540 ≤ t → t < 1020 →
        ((∃ s ∈ freeSlots [⟨540, 600, "Standup"⟩] ⟨540, 1020⟩ 0,
            memSpan t s.start s.stop) ↔
          ∀ b ∈ [(⟨540, 600, "Standup"⟩ : BusyInterval)],
            ¬ memSpan t b.start b.stop))) :=
  ⟨⟨by decide, by decide⟩,
    freeSlots_disjoint_correct [⟨540, 600, "Standup"⟩] ⟨540, 1020⟩ 30
      (by decide) (by decide)⟩

/-- C2 (counterexample): on the malformed window `day_start = 10:00`,
`day_end = 09:00` the engine does not signal any error; it silently returns
a slot, which moreover lies outside the window. -/
theorem availability_no_validation_counterexample :
    (⟨600, 540⟩ : AvailabilityWindow).day_end ≤
      (⟨600, 540⟩ : AvailabilityWindow).day_start ∧
    freeSlotsRun [⟨700, 800, "Meeting"⟩] ⟨600, 540⟩ 30 =
      Except.ok [⟨600, 700, 100⟩] :=
  ⟨by decide, rfl⟩

/-- C2 (amended): the availability engine performs no input validation at
all: for every input — including windows with `day_end <= day_start` and
busy intervals with `end <= start` — it never signals a `ValidationError`
and always returns the sweep's slot list. -/
theorem availability_never_signals_error (busy : List BusyInterval)
    (w : AvailabilityWindow) (minFree : Nat) :
    (freeSlotsRun busy w minFree).isOk = true := rfl

/-- C3: `check_availability` reports exactly the busy intervals that overlap
the candidate under half-open semantics, in their original order (the
conflict list is a sublist of the input), and `available` holds exactly when
no busy interval overlaps the candidate; an empty busy list is always
available. -/
theorem check_availability_spec (cand : Candidate) (busy : List BusyInterval) :
    (check_availability cand busy).conflicts.Sublist busy ∧
    (∀ b, b ∈ (check_availability cand busy).conflicts ↔
      b ∈ busy ∧ cand.start < b.stop ∧ b.start < cand.stop) ∧
    ((check_availability cand busy).available = true ↔
      ∀ b ∈ busy, ¬(cand.start < b.stop ∧ b.start < cand.stop)) ∧
    (check_availability cand []).available = true := by
  refine ⟨List.filter_sublist _, ?_, ?_, rfl⟩
  · intro b
    simp only [check_availability, List.mem_filter, Bool.and_eq_true,
      decide_eq_true_eq, and_assoc]
  · simp only [check_availability, beq_iff_eq, List.length_eq_zero,
      List.filter_eq_nil_iff, Bool.and_eq_true, decide_eq_true_eq, not_and]

/-- C6: for the busy list `[{09:00,10:00,"Standup"}, {13:00,14:00,"Lunch"}]`,
the window `[09:00, 17:00]` and a 30-minute threshold, the engine returns
exactly the slots `[10:00, 13:00]` and `[14:00, 17:00]`, both 180 minutes,
in that order. -/
theorem freeSlots_concrete_scenario :
    freeSlots [⟨540, 600, "Standup"⟩, ⟨780, 840, "Lunch"⟩] ⟨540, 1020⟩ 30 =
      [⟨600, 780, 180⟩, ⟨840, 1020, 180⟩] := by
  decide

/-- C8: every emitted slot satisfies `duration = end - start`, starts
strictly before it ends, and is at least the hardcoded 30-minute threshold
long. -/
theorem freeSlots_slot_invariants (busy : List BusyInterval)
    (w : AvailabilityWindow) (s : FreeSlot)
    (hs : s ∈ freeSlots busy w 30) :
    s.duration = s.stop - s.start ∧ s.start < s.stop ∧ 30 ≤ s.duration :=
  sweepFree_mem hs

/-- C8 (witness): the slot invariants at the empty busy list in the window
`[00:00, 01:00]`, whose single emitted slot is `[0, 60]`. -/
theorem freeSlots_slot_invariants_witness :
    (⟨0, 60, 60⟩ : FreeSlot) ∈ freeSlots [] ⟨0, 60⟩ 30 ∧
    ((⟨0, 60, 60⟩ : FreeSlot).duration =
        (⟨0, 60, 60⟩ : FreeSlot).stop - (⟨0, 60, 60⟩ : FreeSlot).start ∧
      (⟨0, 60, 60⟩ : FreeSlot).start < (⟨0, 60, 60⟩ : FreeSlot).stop ∧
      30 ≤ (⟨0, 60, 60⟩ : FreeSlot).duration) :=
  ⟨by decide, freeSlots_slot_invariants [] ⟨0, 60⟩ ⟨0, 60, 60⟩ (by decide)⟩

/-! ### Query-string model

Queries are lists of characters; `re.search` over the source's patterns is
embedded pattern by pattern.  Each embedded matcher mirrors the leftmost
search of `re.search`: positions are tried left to right and the first
position admitting a match wins.  Greedy and lazy sub-matches are resolved
exactly as the backtracking engine would; where maximal munch is provably
the only candidate (a quantifier followed by a token that cannot start
inside the quantifier's character class) the matcher takes the maximal run
directly. -/

/-- Python's `\s` class: space, tab, newline, carriage return, vertical tab
and form feed. -/
def isWsChar (c : Char) : Bool :=
  c == ' ' || c == '\t' || c == '\n' || c == '\r' ||
  c == Char.ofNat 11 || c == Char.ofNat 12

/-- Python's `\d` class. -/
def isDigitChar (c : Char) : Bool := '0' ≤ c && c ≤ '9'

/-- The character class `[^,\n]` of the capture groups. -/
def nonComma (c : Char) : Bool := !(c == ',' || c == '\n')

/-- Numeric value of a digit run, the embedding of `int(match.group(1))`. -/
def digitsVal (ds : List Char) : Nat :=
  ds.foldl (fun acc c => acc * 10 + (c.toNat - 48)) 0

/-- The apostrophe character (used by the `i'm at` pattern). -/
def apos : Char := Char.ofNat 39

/-- Literal prefix test (the anchored match of a literal at the current
position). -/
def isPre : List Char → List Char → Bool
  | [], _ => true
  | a :: as, s =>
    match s with
    | [] => false
    | b :: bs => a == b && isPre as bs

/-- ASCII lowercasing of one character, the effect of `str.lower()` on the
ASCII queries this parser handles. -/
def lowerChar (c : Char) : Char :=
  if 'A' ≤ c ∧ c ≤ 'Z' then Char.ofNat (c.toNat + 32) else c

/-- The embedding of `query.lower()`. -/
def lowerStr (s : List Char) : List Char := s.map lowerChar

/-- Python's substring test `sub in s`. -/
def containsSub : List Char → List Char → Bool
  | [], sub => sub.isEmpty
  | c :: t, sub => isPre sub (c :: t) || containsSub t sub

/-- Leftmost search: try the matcher at every position, leftmost first,
exactly as `re.search` scans its subject. -/
def searchFrom {α : Type} (f : List Char → Option α) : List Char → Option α
  | [] => f []
  | c :: t => (f (c :: t)).orElse fun _ => searchFrom f t

/-- First successful result over a list, the embedding of the source's
first-match-wins pattern loops. -/
def firstSome {α β : Type} (f : α → Option β) : List α → Option β
  | [] => none
  | a :: t => (f a).orElse fun _ => firstSome f t

/-- Length of the leading whitespace run. -/
def wsCount (s : List Char) : Nat := (s.takeWhile isWsChar).length

/-- The remainders a greedy `\s+` offers to the rest of the pattern, longest
consumption first — the backtracking order of the regex engine. -/
def wsSplits (s : List Char) : List (List Char) :=
  (List.range (wsCount s)).map fun i => s.drop (wsCount s - i)

/-- Lazy capture `([^,\n]+?)`: grow the capture one character at a time and
stop at the first length whose remainder satisfies the rest of the pattern —
the shortest-match preference of a lazy quantifier. -/
def capLoop (tailOk : List Char → Bool) : List Char → List Char → Option (List Char)
  | _, [] => none
  | acc, c :: rest =>
    if nonComma c then
      if tailOk rest then some (acc ++ [c]) else capLoop tailOk (acc ++ [c]) rest
    else none

/-- Matching a sequence of literal words separated by `\s+` at the current
position.  The inter-word `\s+` is taken maximally, which is exact because
every following word starts with a non-whitespace character. -/
def litsChain : List (List Char) → List Char → Option (List Char)
  | [], s => some s
  | [w], s => if isPre w s then some (s.drop w.length) else none
  | w :: rest, s =>
    if isPre w s then
      if wsCount (s.drop w.length) = 0 then none
      else litsChain rest ((s.drop w.length).drop (wsCount (s.drop w.length)))
    else none

/-- The embedding of Python's `str.strip()`. -/
def stripWs (s : List Char) : List Char :=
  ((s.dropWhile isWsChar).reverse.dropWhile isWsChar).reverse

/-- A pattern of the shape `w1\s+...\s+wn\s+([^,\n]+)`: literal words, then
a greedy capture that ends the pattern.  The final `\s+` backtracks from its
maximal length (the capture class accepts whitespace), and for each split
the greedy capture is the maximal `[^,\n]` run, which must be non-empty. -/
def matchLitsGreedyCap (lits : List (List Char)) (s : List Char) :
    Option (List Char) :=
  match litsChain lits s with
  | none => none
  | some r =>
    firstSome
      (fun rem =>
        if (rem.takeWhile nonComma).isEmpty then none
        else some (rem.takeWhile nonComma))
      (wsSplits r)

/-- A pattern of the shape `w\s+([^,\n]+?)TAIL`: a literal word, then a lazy
capture constrained by the rest of the pattern.  The `\s+` backtracks from
its maximal length; for each split the lazy capture takes the shortest
non-empty prefix whose remainder satisfies `tailOk`. -/
def matchLitsLazyCap (lits : List (List Char)) (tailOk : List Char → Bool)
    (s : List Char) : Option (List Char) :=
  match litsChain lits s with
  | none => none
  | some r => firstSome (fun rem => capLoop tailOk [] rem) (wsSplits r)

/-- The literal word `w` followed by the end of the subject. -/
def litEnd (w : List Char) (r : List Char) : Bool :=
  isPre w r && (r.drop w.length).isEmpty

/-- `\s+` then the literal `w` then the end of the subject. -/
def wsLitEnd (w : List Char) (r : List Char) : Bool :=
  decide (0 < wsCount r) && litEnd w (r.drop (wsCount r))

/-- The branch `\s+new\s+york` anchored at the end of the subject. -/
def newYorkEnd (r : List Char) : Bool :=
  decide (0 < wsCount r) &&
    (isPre ("new".toList) (r.drop (wsCount r)) &&
      wsLitEnd ("york".toList) ((r.drop (wsCount r)).drop 3))

/-- The tail `(?:\s+new\s+york|\s+nyc|\s+ny)?$` of the four location
patterns: one of the regional suffixes reaching the end of the subject, or
(the optional group absent) the end of the subject itself. -/
def regionalEnd (r : List Char) : Bool :=
  newYorkEnd r || wsLitEnd ("nyc".toList) r || wsLitEnd ("ny".toList) r ||
    r.isEmpty

/-- The tail `(?:\s+street|\s+avenue|\s+road|\s+boulevard)` of the fourth
starting-point pattern: `\s+` then one of the four words; the pattern ends
there, so the maximal whitespace run is exact and any of the four
alternatives suffices. -/
def streetTail (r : List Char) : Bool :=
  decide (0 < wsCount r) &&
    (["street".toList, "avenue".toList, "road".toList, "boulevard".toList].any
      fun w => isPre w (r.drop (wsCount r)))

/-! ### The tables of `NaturalLanguageParser.__init__` -/

/-- The ordered `event_keywords` dictionary (Python dictionaries preserve
insertion order, which is the priority order of `_extract_event_type`). -/
def event_keywords : List (List Char × List (List Char)) :=
  [("vintage".toList,
    ["vintage".toList, "antique".toList, "retro".toList, "flea market".toList,
     "thrift".toList, "collector".toList]),
   ("food".toList,
    ["food".toList, "restaurant".toList, "cafe".toList, "bar".toList,
     "festival".toList, "truck".toList, "dining".toList]),
   ("art".toList,
    ["art".toList, "gallery".toList, "museum".toList, "exhibition".toList,
     "show".toList, "performance".toList]),
   ("music".toList,
    ["music".toList, "concert".toList, "band".toList, "dj".toList,
     "live".toList, "performance".toList]),
   ("fitness".toList,
    ["fitness".toList, "yoga".toList, "gym".toList, "workout".toList,
     "sports".toList, "athletic".toList]),
   ("culture".toList,
    ["culture".toList, "cultural".toList, "heritage".toList,
     "tradition".toList, "festival".toList])]

/-- One keyword group matches when any of its keywords occurs in the query
(`any(keyword in query for keyword in keywords)`). -/
def groupMatch (g : List Char × List (List Char)) (q : List Char) : Bool :=
  g.2.any fun k => containsSub q k

/-- The `nyc_areas` list checked, in order, before the location patterns. -/
def nyc_areas : List (List Char) :=
  ["manhattan".toList, "brooklyn".toList, "queens".toList, "bronx".toList,
   "staten island".toList, "nyc".toList, "new york".toList]

/-- The leading words of the four `location_patterns`. -/
def locWords : List (List Char) :=
  ["in".toList, "near".toList, "around".toList, "at".toList]

/-! ### The extractors of `NaturalLanguageParser` -/

/-- The loop of `_extract_event_type`: return the first group with a
matching keyword, or the default. -/
def extractTypeLoop : List (List Char × List (List Char)) → List Char → List Char
  | [], _ => "events".toList
  | g :: rest, q => if groupMatch g q then g.1 else extractTypeLoop rest q

/-- `_extract_event_type`. -/
def extract_event_type (q : List Char) : List Char :=
  extractTypeLoop event_keywords q

/-- `_extract_location`: first the borough substrings, then the four
prepositional patterns, then the default `"nyc"`. -/
def extract_location (q : List Char) : List Char :=
  match nyc_areas.find? (fun a => containsSub q a) with
  | some a => a
  | none =>
    match firstSome
        (fun w => searchFrom (matchLitsLazyCap [w] regionalEnd) q) locWords with
    | some cap => stripWs cap
    | none => "nyc".toList

/-- The common tail `\s+(\d+)\s*(?:mins?|minutes?)` of the first and third
time patterns.  All four unit alternatives begin with `min` and the pattern
ends with the unit, so a match exists exactly when `min` follows; the
greedy digit run and the whitespace runs admit no other backtracking
choice because the token after each cannot start inside the class. -/
def wsDigitsMin (r : List Char) : Option Nat :=
  if wsCount r = 0 then none
  else
    if ((r.drop (wsCount r)).takeWhile isDigitChar).isEmpty then none
    else
      if isPre ("min".toList)
          ((fun r2 => r2.drop (wsCount r2))
            ((r.drop (wsCount r)).drop
              ((r.drop (wsCount r)).takeWhile isDigitChar).length)) then
        some (digitsVal ((r.drop (wsCount r)).takeWhile isDigitChar))
      else none

/-- The pattern `within\s+(\d+)\s*(?:mins?|minutes?)`. -/
def matchTimeWithin (s : List Char) : Option Nat :=
  (litsChain ["within".toList] s).bind wsDigitsMin

/-- The pattern `less\s+than\s+(\d+)\s*(?:mins?|minutes?)`. -/
def matchTimeLess (s : List Char) : Option Nat :=
  (litsChain ["less".toList, "than".toList] s).bind wsDigitsMin

/-- The pattern `(\d+)\s*(?:mins?|minutes?)\s+(?:away|travel|commute)`.
Here something follows the unit, so the unit alternation backtracks in the
preference order `mins`, `min`, `minutes`, `minute`; the following `\s+` is
maximal (exact, the next literal starts with a letter) and any of the three
closing words suffices. -/
def matchTimeAway (s : List Char) : Option Nat :=
  if (s.takeWhile isDigitChar).isEmpty then none
  else
    if ((fun r2 =>
          ((if isPre ("mins".toList) r2 then [r2.drop 4] else []) ++
            (if isPre ("min".toList) r2 then [r2.drop 3] else []) ++
            (if isPre ("minutes".toList) r2 then [r2.drop 7] else []) ++
            (if isPre ("minute".toList) r2 then [r2.drop 6] else [])).any
            fun r3 =>
              decide (0 < wsCount r3) &&
                (["away".toList, "travel".toList, "commute".toList].any
                  fun w => isPre w (r3.drop (wsCount r3))))
        ((fun r => r.drop (wsCount r))
          (s.drop (s.takeWhile isDigitChar).length))) then
      some (digitsVal (s.takeWhile isDigitChar))
    else none

/-- `_extract_time_constraint`: the three patterns in order, first match
wins. -/
def extract_time_constraint (q : List Char) : Option Nat :=
  (searchFrom matchTimeWithin q).orElse fun _ =>
    (searchFrom matchTimeAway q).orElse fun _ => searchFrom matchTimeLess q

/-- The alternation `(train|subway|bus|walking|car|bike)` of the `by` and
`via` transport patterns. -/
def transportAltsRoad : List (List Char) :=
  ["train".toList, "subway".toList, "bus".toList, "walking".toList,
   "car".toList, "bike".toList]

/-- The alternation `(train|subway|bus|foot|bike)` of the `on` transport
pattern. -/
def transportAltsOn : List (List Char) :=
  ["train".toList, "subway".toList, "bus".toList, "foot".toList,
   "bike".toList]

/-- A transport pattern `w\s+(alt1|...|altn)`: the pattern ends with the
alternation, so the first alternative that is a prefix of the remainder is
the captured mode. -/
def matchTransport (w : List Char) (alts : List (List Char)) (s : List Char) :
    Option (List Char) :=
  match litsChain [w] s with
  | none => none
  | some r =>
    if wsCount r = 0 then none
    else alts.find? fun a => isPre a (r.drop (wsCount r))

/-- The `if/elif` chain mapping a captured mode word to a transport mode;
a captured word outside the chain falls through to the next pattern. -/
def mapMode (m : List Char) : Option (List Char) :=
  if m = "train".toList ∨ m = "subway".toList then some ("transit".toList)
  else if m = "walking".toList ∨ m = "foot".toList then some ("walking".toList)
  else if m = "bike".toList ∨ m = "bicycling".toList then
    some ("bicycling".toList)
  else if m = "car".toList ∨ m = "driving".toList then some ("driving".toList)
  else if m = "bus".toList then some ("transit".toList)
  else none

/-- `_extract_transport_mode`: the three patterns in order with the mode
mapping, defaulting to `"transit"`. -/
def extract_transport_mode (q : List Char) : List Char :=
  match (searchFrom (matchTransport ("by".toList) transportAltsRoad) q).bind
      mapMode with
  | some mode => mode
  | none =>
    match (searchFrom (matchTransport ("on".toList) transportAltsOn) q).bind
        mapMode with
    | some mode => mode
    | none =>
      match (searchFrom (matchTransport ("via".toList) transportAltsRoad)
          q).bind mapMode with
      | some mode => mode
      | none => "transit".toList

/-- The four `starting_patterns` of `_extract_starting_point`, in order:
`starting\s+at\s+([^,\n]+)`, `from\s+([^,\n]+)`, `i'm\s+at\s+([^,\n]+)` and
`at\s+([^,\n]+?)(?:\s+street|\s+avenue|\s+road|\s+boulevard)`. -/
def starting_matchers : List (List Char → Option (List Char)) :=
  [matchLitsGreedyCap ["starting".toList, "at".toList],
   matchLitsGreedyCap ["from".toList],
   matchLitsGreedyCap [['i', apos, 'm'], "at".toList],
   matchLitsLazyCap ["at".toList] streetTail]

/-- `_extract_starting_point`: first matching pattern wins, the capture is
stripped. -/
def extract_starting_point (q : List Char) : Option (List Char) :=
  (firstSome (fun f => searchFrom f q) starting_matchers).map stripWs

/-- The result record of `parse_query`. -/
structure ParsedQuery where
  event_type : List Char
  location : List Char
  max_travel_time : Option Nat
  transport_mode : List Char
  starting_point : Option (List Char)
  original_query : List Char
  parsed : Bool
deriving DecidableEq

/-- `NaturalLanguageParser.parse_query`: lowercase the query once and run
the five extractors. -/
def parse_query (query : List Char) : ParsedQuery :=
  { event_type := extract_event_type (lowerStr query)
    location := extract_location (lowerStr query)
    max_travel_time := extract_time_constraint (lowerStr query)
    transport_mode := extract_transport_mode (lowerStr query)
    starting_point := extract_starting_point (lowerStr query)
    original_query := query
    parsed := true }

/-! ### The conflict-cue check of `NaturalLanguageCalendarCLI` -/

/-- A multi-word phrase pattern (`\s+` between words) is found somewhere in
the subject. -/
def phraseFound (words : List (List Char)) (q : List Char) : Bool :=
  (searchFrom (litsChain words) q).isSome

/-- The `conflict_check` loop of `parse_natural_language`: the flag becomes
true exactly when one of the six cue patterns matches.  The patterns
`conflict` and `conflicts?` both match exactly when `conflict` occurs as a
substring (the optional `s?` cannot affect whether a match exists), and the
optional `s?` of `events?` is immaterial for the same reason. -/
def check_conflicts_flag (q : List Char) : Bool :=
  containsSub q ("conflict".toList) ||
    containsSub q ("conflict".toList) ||
    phraseFound ["what".toList, "i".toList, "have".toList] q ||
    phraseFound ["my".toList, "event".toList] q ||
    phraseFound ["current".toList, "event".toList] q ||
    phraseFound ["this".toList, "weekend".toList] q

/-- The `check_conflicts` field of `parse_natural_language`
(`natural_calendar_cli.py`): the query is lowercased, then the cue loop
runs. -/
def parse_natural_language_conflicts (query : List Char) : Bool :=
  check_conflicts_flag (lowerStr query)

/-- The query of the concrete parsing scenario, with its original
capitalization (built from an explicit apostrophe character):
`I'm at 162 East 82nd Street, no more than 30 min by train`. -/
def qC5 : List Char :=
  ['I', apos, 'm'] ++
    " at 162 East 82nd Street, no more than 30 min by train".toList

/-! ### Lemmas about the extractors -/

/-- A first-match loop over a list all of whose entries fail yields
nothing. -/
theorem firstSome_eq_none {α β : Type} (f : α → Option β) :
    ∀ {l : List α}, (∀ a ∈ l, f a = none) → firstSome f l = none := by
  intro l
  induction l with
  | nil => intro _; rfl
  | cons a t ih =>
    intro h
    simp only [firstSome]
    rw [h a (List.mem_cons_self _ _)]
    exact ih fun x hx => h x (List.mem_cons_of_mem _ hx)

/-- The event-type loop returns the `i`-th group's name as soon as that
group matches and every earlier group fails. -/
theorem extractTypeLoop_eq_of_first :
    ∀ (l : List (List Char × List (List Char))) (q : List Char) (i : Nat)
      (hi : i < l.length),
      groupMatch (l.get ⟨i, hi⟩) q = true →
      (∀ g ∈ l.take i, groupMatch g q = false) →
      extractTypeLoop l q = (l.get ⟨i, hi⟩).1 := by
  intro l
  induction l with
  | nil => intro q i hi; exact absurd hi (Nat.not_lt_zero i)
  | cons g rest ih =>
    intro q i hi hm hearlier
    cases i with
    | zero =>
      simp only [List.get] at hm ⊢
      simp only [extractTypeLoop, hm, if_true]
    | succ i =>
      have h0 : groupMatch g q = false :=
        hearlier g (by simp [List.take_succ_cons])
      simp only [List.get] at hm ⊢
      simp only [extractTypeLoop, h0, Bool.false_eq_true, if_false]
      refine ih q i (Nat.lt_of_succ_lt_succ hi) hm fun g' hg' => ?_
      exact hearlier g' (by simp [List.take_succ_cons, hg'])

/-- The event-type loop falls back to the default when every group fails. -/
theorem extractTypeLoop_default :
    ∀ (l : List (List Char × List (List Char))) (q : List Char),
      (∀ g ∈ l, groupMatch g q = false) →
      extractTypeLoop l q = "events".toList := by
  intro l
  induction l with
  | nil => intro q _; rfl
  | cons g rest ih =>
    intro q h
    have h0 : groupMatch g q = false := h g (List.mem_cons_self _ _)
    simp only [extractTypeLoop, h0, Bool.false_eq_true, if_false]
    exact ih q fun g' hg' => h g' (List.mem_cons_of_mem _ hg')

/-! ### Claims about the parser -/

/-- C4: for every query, if the `i`-th keyword group (in the configured
priority order vintage, food, art, music, fitness, culture) matches the
lowercased query and every earlier group fails, `parse_query` classifies
the query as the `i`-th group's event type.  The position of the keywords
inside the query text is irrelevant: the hypotheses mention only which
groups match, so the first matching group in table order wins and later
groups are never consulted. -/
theorem parse_event_type_priority (query : List Char) (i : Nat)
    (hi : i < event_keywords.length)
    (hmatch : groupMatch (event_keywords.get ⟨i, hi⟩) (lowerStr query) = true)
    (hearlier : ∀ g ∈ event_keywords.take i,
      groupMatch g (lowerStr query) = false) :
    (parse_query query).event_type = (event_keywords.get ⟨i, hi⟩).1 :=
  extractTypeLoop_eq_of_first event_keywords (lowerStr query) i hi hmatch
    hearlier

/-- C4 (witness): in `"gallery food"` the art keyword `gallery` occurs
before the food keyword `food` in the text, yet the food group (earlier in
the priority order, with no vintage keyword present) wins. -/
theorem parse_event_type_priority_witness :
    (1 < event_keywords.length ∧
      groupMatch (event_keywords.get ⟨1, by decide⟩)
        (lowerStr ("gallery food".toList)) = true ∧
      (∀ g ∈ event_keywords.take 1,
        groupMatch g (lowerStr ("gallery food".toList)) = false)) ∧
    (parse_query ("gallery food".toList)).event_type =
      (event_keywords.get ⟨1, by decide⟩).1 :=
  ⟨⟨by decide, by decide, by decide⟩,
    parse_event_type_priority ("gallery food".toList) 1 (by decide) (by decide)
      (by decide)⟩

/-- C5 (counterexample): on the claimed query the parser extracts no travel
time at all — the field is `none`, not `30` — because `no more than 30 min`
matches none of the three time patterns (`within N min`,
`N min away|travel|commute`, `less than N min`). -/
theorem parse_scenario_counterexample :
    (parse_query qC5).max_travel_time = none := by decide

/-- C5 (amended): `parse` on
`"I'm at 162 East 82nd Street, no more than 30 min by train"` yields
starting point `162 east 82nd street` and transport mode `transit`, but the
travel-time constraint is absent (`none`): the source has no pattern for
`no more than N min`. -/
theorem parse_scenario_amended :
    (parse_query qC5).starting_point = some ("162 east 82nd street".toList) ∧
    (parse_query qC5).max_travel_time = none ∧
    (parse_query qC5).transport_mode = "transit".toList := by decide

/-- C7: `parse_query` always produces an event type and a location (both
fields are total strings, never null, by construction), and they take their
documented defaults: when no keyword group matches, the event type is
`events`; when no borough substring occurs and none of the four
prepositional location patterns matches, the location is `nyc`. -/
theorem parse_defaults (query : List Char) :
    ((∀ g ∈ event_keywords, groupMatch g (lowerStr query) = false) →
      (parse_query query).event_type = "events".toList) ∧
    (((∀ a ∈ nyc_areas, containsSub (lowerStr query) a = false) ∧
      (∀ w ∈ locWords,
        searchFrom (matchLitsLazyCap [w] regionalEnd) (lowerStr query) =
          none)) →
      (parse_query query).location = "nyc".toList) := by
  constructor
  · intro h
    exact extractTypeLoop_default event_keywords (lowerStr query) h
  · intro h
    show extract_location (lowerStr query) = "nyc".toList
    have hf : nyc_areas.find? (fun a => containsSub (lowerStr query) a) =
        none :=
      List.find?_eq_none.mpr fun a ha => by
        rw [h.1 a ha]
        exact Bool.false_ne_true
    have hq : firstSome
        (fun w => searchFrom (matchLitsLazyCap [w] regionalEnd)
          (lowerStr query)) locWords = none :=
      firstSome_eq_none _ h.2
    unfold extract_location
    rw [hf, hq]

/-- C7 (witness): the defaults at the cue-free query `"hello world"`. -/
theorem parse_defaults_witness :
    ((∀ g ∈ event_keywords,
        groupMatch g (lowerStr ("hello world".toList)) = false) ∧
      (∀ a ∈ nyc_areas,
        containsSub (lowerStr ("hello world".toList)) a = false) ∧
      (∀ w ∈ locWords,
        searchFrom (matchLitsLazyCap [w] regionalEnd)
          (lowerStr ("hello world".toList)) = none)) ∧
    (parse_query ("hello world".toList)).event_type = "events".toList ∧
    (parse_query ("hello world".toList)).location = "nyc".toList :=
  ⟨⟨by decide, by decide, by decide⟩,
    (parse_defaults ("hello world".toList)).1 (by decide),
    (parse_defaults ("hello world".toList)).2 ⟨by decide, by decide⟩⟩

/-- C9: `parse_query` is a total function — the embedding terminates on
every query and no operation in the source body can raise (`int` is only
applied to a `\d+` capture) — and every field whose patterns all fail takes
its documented default or absent value: travel time `none`, starting point
`none`, transport mode `transit`; the result is always marked parsed and
carries the original query. -/
theorem parse_never_fails (query : List Char) :
    (parse_query query).parsed = true ∧
    (parse_query query).original_query = query ∧
    (searchFrom matchTimeWithin (lowerStr query) = none →
      searchFrom matchTimeAway (lowerStr query) = none →
      searchFrom matchTimeLess (lowerStr query) = none →
      (parse_query query).max_travel_time = none) ∧
    ((∀ f ∈ starting_matchers, searchFrom f (lowerStr query) = none) →
      (parse_query query).starting_point = none) ∧
    (searchFrom (matchTransport ("by".toList) transportAltsRoad)
        (lowerStr query) = none →
      searchFrom (matchTransport ("on".toList) transportAltsOn)
        (lowerStr query) = none →
      searchFrom (matchTransport ("via".toList) transportAltsRoad)
        (lowerStr query) = none →
      (parse_query query).transport_mode = "transit".toList) := by
  refine ⟨rfl, rfl, ?_, ?_, ?_⟩
  · intro h1 h2 h3
    show extract_time_constraint (lowerStr query) = none
    unfold extract_time_constraint
    rw [h1, h2, h3]
    rfl
  · intro h
    show extract_starting_point (lowerStr query) = none
    unfold extract_starting_point
    rw [firstSome_eq_none _ h]
    rfl
  · intro h1 h2 h3
    show extract_transport_mode (lowerStr query) = "transit".toList
    unfold extract_transport_mode
    rw [h1, h2, h3]
    rfl

/-- C9 (witness): the default-and-absent outcome at `"hello world"`, where
every pattern of every optional field fails. -/
theorem parse_never_fails_witness :
    ((searchFrom matchTimeWithin (lowerStr ("hello world".toList)) = none ∧
      searchFrom matchTimeAway (lowerStr ("hello world".toList)) = none ∧
      searchFrom matchTimeLess (lowerStr ("hello world".toList)) = none) ∧
      (∀ f ∈ starting_matchers,
        searchFrom f (lowerStr ("hello world".toList)) = none) ∧
      (searchFrom (matchTransport ("by".toList) transportAltsRoad)
          (lowerStr ("hello world".toList)) = none ∧
        searchFrom (matchTransport ("on".toList) transportAltsOn)
          (lowerStr ("hello world".toList)) = none ∧
        searchFrom (matchTransport ("via".toList) transportAltsRoad)
          (lowerStr ("hello world".toList)) = none)) ∧
    (parse_query ("hello world".toList)).parsed = true ∧
    (parse_query ("hello world".toList)).max_travel_time = none ∧
    (parse_query ("hello world".toList)).starting_point = none ∧
    (parse_query ("hello world".toList)).transport_mode = "transit".toList :=
  ⟨⟨⟨by decide, by decide, by decide⟩, by decide,
      ⟨by decide, by decide, by decide⟩⟩,
    (parse_never_fails ("hello world".toList)).1,
    (parse_never_fails ("hello world".toList)).2.2.1 (by decide) (by decide)
      (by decide),
    (parse_never_fails ("hello world".toList)).2.2.2.1 (by decide),
    (parse_never_fails ("hello world".toList)).2.2.2.2 (by decide) (by decide)
      (by decide)⟩

/-- Matching the two-word chain `this\s+weekend` at the start of a subject
that literally begins with `this weekend` succeeds outright: every match
step lands on a concrete character. -/
theorem litsChain_thisWeekend_append (t : List Char) :
    litsChain ["this".toList, "weekend".toList] ("this weekend".toList ++ t) =
      some t := rfl

/-- A successful literal prefix test exposes the split of the subject. -/
theorem isPre_exists :
    ∀ {w s : List Char}, isPre w s = true → ∃ u, w ++ u = s := by
  intro w
  induction w with
  | nil => intro s _; exact ⟨s, rfl⟩
  | cons a as ih =>
    intro s h
    cases s with
    | nil => exact absurd h (by simp [isPre])
    | cons b bs =>
      simp only [isPre, Bool.and_eq_true, beq_iff_eq] at h
      obtain ⟨u, hu⟩ := ih h.2
      exact ⟨u, by rw [List.cons_append, hu, h.1]⟩

/-- If the literal phrase `this weekend` occurs as a substring, the
`this\s+weekend` pattern search succeeds. -/
theorem containsSub_phrase :
    ∀ q : List Char, containsSub q ("this weekend".toList) = true →
      phraseFound ["this".toList, "weekend".toList] q = true := by
  intro q
  induction q with
  | nil => intro h; exact absurd h (by decide)
  | cons c t ih =>
    intro h
    simp only [containsSub, Bool.or_eq_true] at h
    rcases h with h | h
    · obtain ⟨u, hu⟩ := isPre_exists h
      simp only [phraseFound, searchFrom]
      rw [← hu, litsChain_thisWeekend_append]
      rfl
    · have ihh := ih h
      simp only [phraseFound, searchFrom] at ihh ⊢
      cases hfs : litsChain ["this".toList, "weekend".toList] (c :: t) with
      | some v => rfl
      | none => exact ihh

/-- C10: every query whose lowercased text contains the phrase
`this weekend` gets `check_conflicts = true` from `parse_natural_language`,
because `this\s+weekend` is listed among the conflict cues — a purely
temporal phrase implicitly requests conflict checking. -/
theorem parse_natural_language_weekend_conflicts (query : List Char)
    (h : containsSub (lowerStr query) ("this weekend".toList) = true) :
    parse_natural_language_conflicts query = true := by
  have hp := containsSub_phrase (lowerStr query) h
  simp only [parse_natural_language_conflicts, check_conflicts_flag, hp,
    Bool.or_true]

/-- C10 (witness): `"vintage markets this weekend"` mentions no conflicts,
yet the flag is set. -/
theorem parse_natural_language_weekend_conflicts_witness :
    containsSub (lowerStr ("vintage markets this weekend".toList))
      ("this weekend".toList) = true ∧
    parse_natural_language_conflicts
      ("vintage markets this weekend".toList) = true :=
  ⟨by decide,
    parse_natural_language_weekend_conflicts
      ("vintage markets this weekend".toList) (by decide)⟩

/-- C2 (witness): the no-error behavior instantiated at a malformed window
and a malformed busy interval. -/
theorem availability_never_signals_error_witness :
    (freeSlotsRun [⟨10, 4, "Backwards"⟩] ⟨5, 3⟩ 30).isOk = true :=
  availability_never_signals_error [⟨10, 4, "Backwards"⟩] ⟨5, 3⟩ 30

/-- C3 (witness): the conflict report instantiated at the touching case
`candidate = [10:00, 11:00]`, `busy = [[11:00, 12:00]]`, where
`available = true`. -/
theorem check_availability_spec_witness :
    (check_availability ⟨600, 660⟩ [⟨660, 720, "Next"⟩]).conflicts.Sublist
      [⟨660, 720, "Next"⟩] ∧
    (∀ b, b ∈ (check_availability ⟨600, 660⟩ [⟨660, 720, "Next"⟩]).conflicts ↔
      b ∈ [(⟨660, 720, "Next"⟩ : BusyInterval)] ∧
        600 < b.stop ∧ b.start < 660) ∧
    ((check_availability ⟨600, 660⟩ [⟨660, 720, "Next"⟩]).available = true ↔
      ∀ b ∈ [(⟨660, 720, "Next"⟩ : BusyInterval)],
        ¬(600 < b.stop ∧ b.start < 660)) ∧
    (check_availability ⟨600, 660⟩ []).available = true :=
  check_availability_spec ⟨600, 660⟩ [⟨660, 720, "Next"⟩]

end Walter
